import Mathlib

/-!
Verification of the DEET debugger core (`src/proj-1/deet/src`): a shallow
embedding of `inferior.rs`, `debugger.rs` and `debugger_command.rs`, followed
by theorems about the embedded operations.

Modelling conventions:
* Machine integers (`usize`/`u64`) are `Nat`, with explicit `2 ^ 64` bounds and
  wrapping where the Rust code can wrap.
* The traced process's memory is a map `Nat → Nat` from word-aligned addresses
  to the 64-bit machine word stored there (this is exactly the granularity at
  which `ptrace::read` / `ptrace::write` accesses it in the source).
* ptrace syscalls that depend on the traced process (waits after a
  continue/step) are oracles: their outcomes are explicit parameters of the
  embedded functions, and the process's `%rip` register is tracked in the
  state, updated from the oracle on every reported stop (faithful to `wait`,
  which reads `%rip` with `getregs` whenever `waitpid` reports a stop).
* Memory reads/writes through `ptrace` are modelled as succeeding (the
  theorems concern a live, stopped traced process); paths where the source
  would `unwrap` a failed syscall on a dead process are tracked with an
  `alive` flag and an `Option` result where a claim depends on them.
-/

namespace Deet

/-- Embeds `align_addr_to_word` (inferior.rs:44-46):
`addr & (-(size_of::<usize>() as isize) as usize)`, i.e. `addr & !7` on a
64-bit target; the mask `-(8 as isize) as usize` is `0xFFFFFFFFFFFFFFF8`. -/
def align_addr_to_word (addr : Nat) : Nat :=
  addr &&& 0xFFFFFFFFFFFFFFF8

/-- Embeds `Inferior::write_byte` (inferior.rs:224-237) on the word-level
memory map: reads the aligned word, extracts the original byte at the sub-word
offset, masks that byte out (`!(0xff << 8*byte_offset)` on `u64` is xor with
`2^64 - 1`), ors in the new byte, writes the word back.  Returns the new
memory together with the returned original byte. -/
def write_byte (mem : Nat → Nat) (addr val : Nat) : (Nat → Nat) × Nat :=
  let aligned_addr := align_addr_to_word addr
  let byte_offset := addr - aligned_addr
  let word := mem aligned_addr
  let orig_byte := (word >>> (8 * byte_offset)) &&& 0xff
  let masked_word := word &&& ((2 ^ 64 - 1) ^^^ (0xff <<< (8 * byte_offset)))
  let updated_word := masked_word ||| (val <<< (8 * byte_offset))
  (fun a => if a = aligned_addr then updated_word else mem a, orig_byte)

/-- The byte stored at (possibly unaligned) address `addr` of the word-level
memory map: the same extraction `(word >> 8*byte_offset) & 0xff` that
`Inferior::write_byte` performs. -/
def byteAt (mem : Nat → Nat) (addr : Nat) : Nat :=
  (mem (align_addr_to_word addr) >>> (8 * (addr - align_addr_to_word addr))) &&& 0xff

/-- How a single-byte patch changes each bit of the containing word:
inside the patched byte the bits come from `val`, outside it they come from
the old word (with everything at and above bit 64 cleared, as the Rust
computation happens in `u64`). -/
theorem testBit_patch (word val off i : Nat) (hoff : off < 8) (hval : val < 256) :
    ((word &&& ((2 ^ 64 - 1) ^^^ (0xff <<< (8 * off)))) ||| (val <<< (8 * off))).testBit i
      = if 8 * off ≤ i ∧ i < 8 * off + 8 then val.testBit (i - 8 * off)
        else (word.testBit i && decide (i < 64)) := by
  have h255 : (0xff : Nat) = 2 ^ 8 - 1 := by norm_num
  simp only [Nat.testBit_or, Nat.testBit_and, Nat.testBit_xor, Nat.testBit_shiftLeft,
    Nat.testBit_two_pow_sub_one, h255, ge_iff_le]
  by_cases h1 : 8 * off ≤ i
  · by_cases h2 : i < 8 * off + 8
    · have hlt : i - 8 * off < 8 := by omega
      have h64 : i < 64 := by omega
      simp [h1, h2, hlt, h64]
    · have hge : ¬ (i - 8 * off < 8) := by omega
      have hvbit : val.testBit (i - 8 * off) = false :=
        Nat.testBit_lt_two_pow (by
          calc val < 256 := hval
            _ = 2 ^ 8 := by norm_num
            _ ≤ 2 ^ (i - 8 * off) := Nat.pow_le_pow_right (by norm_num) (by omega))
      simp [h1, h2, hge, hvbit]
  · simp [h1]

/-- Embeds `Breakpoint` (debugger.rs:16-20): a resolved address and the cached
byte that the trap byte replaced. -/
structure Breakpoint where
  addr : Nat
  orig_byte : Nat
deriving DecidableEq

/-- Embeds the signals distinguished by the source (`Inferior::new` matches on
`SIGTRAP`; every other signal is only carried along). -/
inductive Signal
  | SIGTRAP
  | SIGINT
  | SIGSEGV
  | SIGTERM
  | SIGKILL
deriving DecidableEq

/-- Embeds `Status` (inferior.rs:17-28). -/
inductive Status
  | Stopped (sig : Signal) (rip : Nat)
  | Exited (code : Int)
  | Signaled (sig : Signal)
deriving DecidableEq

/-- Embeds the lookup `self.break_points.contains_key(..)` /
`self.break_points[&..]` on the inferior's breakpoint map, modelled as an
association list with unique addresses. -/
def lookupBp (bps : List Breakpoint) (a : Nat) : Option Breakpoint :=
  bps.find? (fun bp => bp.addr == a)

/-- Embeds `Inferior::set_break_points` (inferior.rs:96-108): for every
breakpoint address, write the trap byte `0xcc` through `write_byte` and store
the byte that call returns as the entry's new `orig_byte`.  The source first
performs all the writes (collecting the returned bytes) and then updates the
map entries pairwise; for a map with unique addresses this equals the
entry-by-entry recursion below. -/
def set_break_points : List Breakpoint → (Nat → Nat) → List Breakpoint × (Nat → Nat)
  | [], mem => ([], mem)
  | bp :: rest, mem =>
    let r := write_byte mem bp.addr 0xcc
    let rec' := set_break_points rest r.1
    (⟨bp.addr, r.2⟩ :: rec'.1, rec'.2)

/-- The state of one traced inferior: its breakpoint map, the traced memory
(word-aligned address → machine word), the `%rip` register, and whether the
process is still live (ptrace register access on a dead process fails and the
source `unwrap`s it). -/
structure InfState where
  bps : List Breakpoint
  mem : Nat → Nat
  rip : Nat
  alive : Bool

/-- Wrapping decrement of a `u64` program counter (`regs.rip.wrapping_sub(1)`,
inferior.rs:136; the read at inferior.rs:133 computes the same value for any
nonzero counter). -/
def sub1_64 (r : Nat) : Nat :=
  (r + (2 ^ 64 - 1)) % 2 ^ 64

/-- Embeds `Inferior::set_back_rip` (inferior.rs:131-139): read the registers
(`unwrap` fails — modelled as `none` — when the process is dead), and if
`%rip - 1` is a breakpoint address, write that breakpoint's cached
`orig_byte` back at `%rip - 1` and rewrite `%rip` to `%rip - 1`. -/
def set_back_rip (st : InfState) : Option InfState :=
  if st.alive then
    let bp_addr := sub1_64 st.rip
    match lookupBp st.bps bp_addr with
    | some bp =>
      let w := write_byte st.mem bp_addr bp.orig_byte
      some { st with mem := w.1, rip := bp_addr }
    | none => some st
  else none

/-- Embeds `Inferior::check_stop_at_b` (inferior.rs:110-129): if the current
`%rip` is a breakpoint address, single-step and wait (the wait outcome is the
oracle `stepWait`); if the process stopped, re-write the trap byte at the old
`%rip`; if it exited or was signaled (or the wait failed), return.  A stop
updates `%rip` from the wait's reported counter. -/
def check_stop_at_b (st : InfState) (stepWait : Except Unit Status) : InfState :=
  if (lookupBp st.bps st.rip).isSome then
    match stepWait with
    | Except.ok (Status.Stopped _ r) =>
      let w := write_byte st.mem st.rip 0xcc
      { st with mem := w.1, rip := r }
    | Except.ok (Status.Exited _) => { st with alive := false }
    | Except.ok (Status.Signaled _) => { st with alive := false }
    | Except.error _ => st
  else st

/-- The outcome of one `continue_proc` call: the resulting inferior state
(`none` when `set_back_rip`'s `getregs().unwrap()` panics on a dead process),
and the raw program counter that the stop report passed to
`debug_data.get_line_from_addr` (inferior.rs:157), when a stop was reported. -/
structure ContResult where
  st : Option InfState
  reportAddr : Option Nat

/-- Embeds `Inferior::continue_proc` (inferior.rs:141-175): install all
breakpoints, step over a breakpoint under the current `%rip`, resume, wait
(oracle `contWait`), report the outcome — a stop is reported at the *raw*
counter returned by the wait — and finally run `set_back_rip` (the `Exited`
and error arms return before reaching it). -/
def continue_proc (st0 : InfState) (stepWait contWait : Except Unit Status) : ContResult :=
  let sbp := set_break_points st0.bps st0.mem
  let st1 : InfState := { st0 with bps := sbp.1, mem := sbp.2 }
  let st2 := check_stop_at_b st1 stepWait
  match contWait with
  | Except.ok (Status.Exited _) => ⟨some { st2 with alive := false }, none⟩
  | Except.ok (Status.Signaled _) => ⟨set_back_rip { st2 with alive := false }, none⟩
  | Except.ok (Status.Stopped _ r) => ⟨set_back_rip { st2 with rip := r }, some r⟩
  | Except.error _ => ⟨some st2, none⟩

/-- Embeds the breakpoint-map construction of `Inferior::new`
(inferior.rs:63-66): `HashMap::insert` for each configured breakpoint, a later
entry with the same address replacing the earlier one. -/
def bp_map_of_list (bps : List Breakpoint) : List Breakpoint :=
  bps.foldl (fun m bp => m.filter (fun p => p.addr != bp.addr) ++ [bp]) []

/-- Embeds `Inferior::new` (inferior.rs:51-75): spawn the target (`ok()?`
yields `None` on spawn failure), build the breakpoint map, then block on the
initial wait (oracle `initWait`); only an `Ok(Stopped(SIGTRAP, _))` outcome
returns the inferior — every other wait outcome yields `None`. -/
def inferior_new (spawn_ok : Bool) (bps : List Breakpoint)
    (initWait : Except Unit Status) : Option (List Breakpoint) :=
  if spawn_ok then
    match initWait with
    | Except.ok (Status.Stopped Signal.SIGTRAP _) => some (bp_map_of_list bps)
    | _ => none
  else none

/-- The observable outcome of the `Break` arm of `Debugger::run`
(debugger.rs:99-115): either a new entry `{ addr, orig_byte: 0xcc }` is pushed
onto the breakpoint table and the loop continues, or — when the resolver
produced no address — `address.unwrap()` panics and the whole debugger
aborts. -/
inductive BreakOutcome
  | ok (table : List Breakpoint)
  | panicked
deriving DecidableEq

/-- Embeds the `Break` arm of `Debugger::run` (debugger.rs:99-115), given the
address the three-way resolution produced (`None` when the Symbol Resolver
could not resolve the specification). -/
def break_arm (resolved : Option Nat) (table : List Breakpoint) : BreakOutcome :=
  match resolved with
  | none => BreakOutcome.panicked
  | some a => BreakOutcome.ok (table ++ [⟨a, 0xcc⟩])

/-- Embeds `Inferior::kill` (inferior.rs:177-181): the process is killed and
reaped; the struct itself remains. -/
def kill_inferior (st : InfState) : InfState :=
  { st with alive := false }

/-- The externally visible actions of the `Run` arm, in program order. -/
inductive RunEv
  | evKill
  | evSpawnOk
  | evSpawnFail
deriving DecidableEq

/-- Embeds the `Run` arm of `Debugger::run` (debugger.rs:66-80): if an
inferior is held, kill it; then attempt the spawn (oracle `spawnRes`).  On
success the new inferior is stored and resumed; on failure
"Error starting subprocess" is printed and `self.inferior` is left exactly as
it was — still holding the killed inferior when one existed. -/
def run_arm (cur : Option InfState) (spawnRes : Option InfState) :
    Option InfState × List RunEv :=
  let evs := match cur with | some _ => [RunEv.evKill] | none => []
  let cur' := match cur with | some i => some (kill_inferior i) | none => none
  match spawnRes with
  | some inf => (some inf, evs ++ [RunEv.evSpawnOk])
  | none => (cur', evs ++ [RunEv.evSpawnFail])

/-- Embeds `DebuggerCommand` (debugger_command.rs:1-9). -/
inductive DebuggerCommand
  | Quit
  | Run (args : List String)
  | Continue
  | Backtrace
  | Break (spec : String)
  | Print
  | Next
deriving DecidableEq

/-- Embeds `DebuggerCommand::from_tokens` (debugger_command.rs:12-36); the
caller guarantees a nonempty token list, so the head is matched directly. -/
def from_tokens : List String → Option DebuggerCommand
  | [] => none
  | t :: rest =>
    if t = "q" ∨ t = "quit" then some DebuggerCommand.Quit
    else if t = "r" ∨ t = "run" then some (DebuggerCommand.Run rest)
    else if t = "c" ∨ t = "cont" ∨ t = "continue" then some DebuggerCommand.Continue
    else if t = "bk" ∨ t = "back" ∨ t = "backtrace" then some DebuggerCommand.Backtrace
    else if t = "b" ∨ t = "break" then
      match rest with
      | [arg] => some (DebuggerCommand.Break arg)
      | _ => none
    else if t = "p" ∨ t = "print" then some DebuggerCommand.Print
    else if t = "n" ∨ t = "next" then some DebuggerCommand.Next
    else none

/-- The inferior/table operations that the arms of the command `match` in
`Debugger::run` (debugger.rs:64-120) can invoke. -/
inductive DebugOp
  | opKill
  | opSpawn
  | opContinueProc
  | opPrintBacktrace
  | opPushBreakpoint
  | opStepToNextLine
deriving DecidableEq

/-- The operations each arm of the command `match` in `Debugger::run`
(debugger.rs:64-120) can invoke; `none` for a command with no arm at all —
the `match` in the source has arms for `Run`, `Continue`, `Quit`,
`Backtrace`, `Break` and `Print`, and none for `Next`. -/
def dispatch_ops : DebuggerCommand → Option (List DebugOp)
  | DebuggerCommand.Run _ => some [DebugOp.opKill, DebugOp.opSpawn, DebugOp.opContinueProc]
  | DebuggerCommand.Continue => some [DebugOp.opContinueProc]
  | DebuggerCommand.Quit => some [DebugOp.opKill]
  | DebuggerCommand.Backtrace => some [DebugOp.opPrintBacktrace]
  | DebuggerCommand.Break _ => some [DebugOp.opPushBreakpoint]
  | DebuggerCommand.Print => some []
  | DebuggerCommand.Next => none

/-- Result of running the frame walk with a given amount of fuel. -/
inductive WalkResult
  | done
  | fault
  | fuelOut
deriving DecidableEq

/-- Embeds `Inferior::print_backtrace` (inferior.rs:183-206): starting from
`%rip`/`%rbp`, loop — stop (`break`) when the function name resolved for the
current counter is `"main"`; otherwise read the saved return address at
`rbp + 8` as the next counter and the word at `rbp` as the next frame pointer
(a failed read propagates as an error, `fault`).  The source loop is
`while true` with no depth bound; the embedding indexes it by fuel, so
`fuelOut` for every fuel value means the source loops forever. -/
def print_backtrace (fn : Nat → Option String) (mem : Nat → Except Unit Nat) :
    Nat → Nat → Nat → WalkResult
  | 0, _, _ => WalkResult.fuelOut
  | fuel + 1, rip, rbp =>
    if fn rip = some ("main") then WalkResult.done
    else
      match mem (rbp + 8) with
      | Except.error _ => WalkResult.fault
      | Except.ok rip' =>
        match mem rbp with
        | Except.error _ => WalkResult.fault
        | Except.ok rbp' => print_backtrace fn mem fuel rip' rbp'

/-- The frame walk terminates from the given start when some finite fuel
suffices. -/
def walkTerminates (fn : Nat → Option String) (mem : Nat → Except Unit Nat)
    (rip rbp : Nat) : Prop :=
  ∃ fuel, print_backtrace fn mem fuel rip rbp ≠ WalkResult.fuelOut

/-- The pure frame-chain iteration underlying the walk: `k` successful pairs
of reads of `rbp + 8` (next counter) and `rbp` (next frame pointer). -/
def chainIter (mem : Nat → Except Unit Nat) : Nat → Nat × Nat → Except Unit (Nat × Nat)
  | 0, s => Except.ok s
  | k + 1, (_rip, rbp) =>
    match mem (rbp + 8) with
    | Except.error e => Except.error e
    | Except.ok rip' =>
      match mem rbp with
      | Except.error e => Except.error e
      | Except.ok rbp' => chainIter mem k (rip', rbp')

/-- On a 64-bit `usize`, masking with `-(8 as isize) as usize = 0xFFFFFFFFFFFFFFF8`
rounds the address down to a multiple of the word size. -/
theorem align_addr_to_word_eq (addr : Nat) (h : addr < 2 ^ 64) :
    align_addr_to_word addr = addr - addr % 8 := by
  have hmask : (0xFFFFFFFFFFFFFFF8 : Nat) = (2 ^ 61 - 1) <<< 3 := by decide
  have hpow : (2 : Nat) ^ 3 = 8 := by norm_num
  have h8 : addr - addr % 8 = (addr >>> 3) <<< 3 := by
    rw [Nat.shiftRight_eq_div_pow, Nat.shiftLeft_eq, hpow]
    omega
  rw [align_addr_to_word, hmask, h8]
  apply Nat.eq_of_testBit_eq
  intro i
  simp only [Nat.testBit_and, Nat.testBit_shiftLeft, Nat.testBit_shiftRight,
    Nat.testBit_two_pow_sub_one, ge_iff_le]
  by_cases h3 : 3 ≤ i
  · by_cases h64 : i < 64
    · have h61 : i - 3 < 61 := by omega
      have hi : 3 + (i - 3) = i := by omega
      simp [h3, h61, hi]
    · have hb : addr.testBit i = false :=
        Nat.testBit_lt_two_pow
          (lt_of_lt_of_le h (Nat.pow_le_pow_right (by norm_num) (by omega)))
      have h61 : ¬ (i - 3 < 61) := by omega
      simp [h3, hb, h61]
  · simp [h3]

/-- The sub-word byte offset computed by `write_byte` is `addr % 8`. -/
theorem sub_align_eq_mod (addr : Nat) (h : addr < 2 ^ 64) :
    addr - align_addr_to_word addr = addr % 8 := by
  rw [align_addr_to_word_eq addr h]
  omega

/-- Patching a byte into a word and then patching back the extracted original
byte restores the word bit-for-bit (the computation of
`Inferior::write_byte`, applied twice at the same offset). -/
theorem patch_restore_word (word off : Nat) (hoff : off < 8) (hword : word < 2 ^ 64) :
    ((((word &&& ((2 ^ 64 - 1) ^^^ (0xff <<< (8 * off)))) ||| (0xcc <<< (8 * off)))
        &&& ((2 ^ 64 - 1) ^^^ (0xff <<< (8 * off))))
      ||| (((word >>> (8 * off)) &&& 0xff) <<< (8 * off))) = word := by
  apply Nat.eq_of_testBit_eq
  intro i
  have horig : (word >>> (8 * off)) &&& 0xff < 256 :=
    lt_of_le_of_lt Nat.and_le_right (by norm_num)
  rw [testBit_patch _ _ _ i hoff horig, testBit_patch _ _ _ i hoff (by norm_num)]
  by_cases h1 : 8 * off ≤ i ∧ i < 8 * off + 8
  · rw [if_pos h1]
    have hi : 8 * off + (i - 8 * off) = i := by omega
    have hff : (0xff : Nat).testBit (i - 8 * off) = true := by
      rw [(by norm_num : (0xff : Nat) = 2 ^ 8 - 1), Nat.testBit_two_pow_sub_one]
      simp only [decide_eq_true_eq]
      omega
    simp [Nat.testBit_and, Nat.testBit_shiftRight, hi, hff]
  · rw [if_neg h1, if_neg h1]
    by_cases h64 : i < 64
    · simp [h64]
    · have hb : word.testBit i = false :=
        Nat.testBit_lt_two_pow
          (lt_of_lt_of_le hword (Nat.pow_le_pow_right (by norm_num) (by omega)))
      simp [h64, hb]

/-- C5: for every address (word-aligned or not) in the traced memory, writing
the trap byte `0xcc` with `Inferior::write_byte` and then writing back the
original byte it returned reproduces the containing machine word (and all
other words) bit-for-bit. -/
theorem write_byte_trap_restore (mem : Nat → Nat) (addr : Nat)
    (haddr : addr < 2 ^ 64)
    (hword : mem (align_addr_to_word addr) < 2 ^ 64) (a : Nat) :
    (write_byte (write_byte mem addr 0xcc).1 addr (write_byte mem addr 0xcc).2).1 a
      = mem a := by
  have hoff : addr - align_addr_to_word addr < 8 := by
    rw [sub_align_eq_mod addr haddr]; omega
  by_cases ha : a = align_addr_to_word addr
  · subst ha
    simp only [write_byte, if_pos rfl]
    exact patch_restore_word (mem (align_addr_to_word addr))
      (addr - align_addr_to_word addr) hoff hword
  · simp only [write_byte]
    rw [if_neg ha, if_neg ha]

/-- C5 witness: the round trip evaluated at a concrete memory, at the
unaligned address 3, observed at the containing word. -/
theorem write_byte_trap_restore_witness :
    (3 : Nat) < 2 ^ 64 ∧ (fun _ : Nat => (0xFEDCBA9876543210 : Nat)) (align_addr_to_word 3) < 2 ^ 64 ∧
    (write_byte (write_byte (fun _ => 0xFEDCBA9876543210) 3 0xcc).1 3
        (write_byte (fun _ => 0xFEDCBA9876543210) 3 0xcc).2).1 0
      = (fun _ : Nat => (0xFEDCBA9876543210 : Nat)) 0 :=
  ⟨by norm_num, by norm_num,
    write_byte_trap_restore (fun _ => 0xFEDCBA9876543210) 3 (by norm_num) (by norm_num) 0⟩

/-- C6: a single `write_byte` patch returns the byte previously at the
sub-word offset `addr % 8`, preserves every other byte of the containing
aligned machine word, and leaves every other word of memory unchanged. -/
theorem write_byte_frame (mem : Nat → Nat) (addr val : Nat)
    (hval : val < 256) (haddr : addr < 2 ^ 64) :
    ((write_byte mem addr val).2
        = (mem (align_addr_to_word addr) >>> (8 * (addr % 8))) &&& 0xff)
    ∧ (∀ j, j < 8 → j ≠ addr % 8 →
        ((write_byte mem addr val).1 (align_addr_to_word addr) >>> (8 * j)) &&& 0xff
          = (mem (align_addr_to_word addr) >>> (8 * j)) &&& 0xff)
    ∧ (∀ a, a ≠ align_addr_to_word addr → (write_byte mem addr val).1 a = mem a) := by
  have hmod : addr - align_addr_to_word addr = addr % 8 := sub_align_eq_mod addr haddr
  have hoff : addr - align_addr_to_word addr < 8 := by omega
  refine ⟨by simp only [write_byte]; rw [hmod], ?_, ?_⟩
  · intro j hj hne
    simp only [write_byte, if_true]
    apply Nat.eq_of_testBit_eq
    intro i
    simp only [Nat.testBit_and, Nat.testBit_shiftRight]
    by_cases hi : (0xff : Nat).testBit i = true
    · have hi8 : i < 8 := by
        by_contra hcontra
        rw [(by norm_num : (0xff : Nat) = 2 ^ 8 - 1), Nat.testBit_two_pow_sub_one] at hi
        simp only [decide_eq_true_eq] at hi
        omega
      rw [testBit_patch _ _ _ _ hoff hval]
      have hrange : ¬ (8 * (addr - align_addr_to_word addr) ≤ 8 * j + i
          ∧ 8 * j + i < 8 * (addr - align_addr_to_word addr) + 8) := by
        rw [hmod]
        rcases Nat.lt_or_ge j (addr % 8) with hlt | hge
        · intro ⟨hle, _⟩; omega
        · have : j > addr % 8 := lt_of_le_of_ne hge (Ne.symm hne)
          intro ⟨_, hlt2⟩; omega
      rw [if_neg hrange]
      have h64 : 8 * j + i < 64 := by omega
      simp [h64]
    · simp only [Bool.not_eq_true] at hi
      rw [hi, Bool.and_false, Bool.and_false]
  · intro a ha
    simp only [write_byte]
    rw [if_neg ha]

/-- C6 witness: the frame property evaluated at a concrete word, address 5
(offset 5), checking byte 0 and the unrelated word at address 64. -/
theorem write_byte_frame_witness :
    (0x41 : Nat) < 256 ∧ (5 : Nat) < 2 ^ 64 ∧
    (write_byte (fun _ => 0x1122334455667788) 5 0x41).2
        = ((fun _ : Nat => (0x1122334455667788 : Nat)) (align_addr_to_word 5) >>> (8 * (5 % 8))) &&& 0xff ∧
    ((write_byte (fun _ => 0x1122334455667788) 5 0x41).1 (align_addr_to_word 5) >>> (8 * 0)) &&& 0xff
        = ((fun _ : Nat => (0x1122334455667788 : Nat)) (align_addr_to_word 5) >>> (8 * 0)) &&& 0xff ∧
    (write_byte (fun _ => 0x1122334455667788) 5 0x41).1 64
        = (fun _ : Nat => (0x1122334455667788 : Nat)) 64 := by
  obtain ⟨h1, h2, h3⟩ :=
    write_byte_frame (fun _ => 0x1122334455667788) 5 0x41 (by norm_num) (by norm_num)
  exact ⟨by norm_num, by norm_num, h1, h2 0 (by norm_num) (by decide), h3 64 (by decide)⟩

/-- Extracting the freshly patched byte back out of the patched word yields
the patched value. -/
theorem byteAt_write_byte_self (mem : Nat → Nat) (addr val : Nat)
    (haddr : addr < 2 ^ 64) (hval : val < 256) :
    byteAt (write_byte mem addr val).1 addr = val := by
  have hoff : addr - align_addr_to_word addr < 8 := by
    rw [sub_align_eq_mod addr haddr]; omega
  apply Nat.eq_of_testBit_eq
  intro i
  simp only [byteAt, write_byte, if_true]
  rw [Nat.testBit_and, Nat.testBit_shiftRight,
    testBit_patch _ _ _ _ hoff hval]
  by_cases hi : i < 8
  · have hcond : 8 * (addr - align_addr_to_word addr) ≤ 8 * (addr - align_addr_to_word addr) + i
        ∧ 8 * (addr - align_addr_to_word addr) + i < 8 * (addr - align_addr_to_word addr) + 8 := by
      omega
    rw [if_pos hcond]
    have hix : 8 * (addr - align_addr_to_word addr) + i - 8 * (addr - align_addr_to_word addr) = i := by
      omega
    have hff : (0xff : Nat).testBit i = true := by
      rw [(by norm_num : (0xff : Nat) = 2 ^ 8 - 1), Nat.testBit_two_pow_sub_one]
      simp only [decide_eq_true_eq]
      omega
    rw [hix, hff, Bool.and_true]
  · have hff : (0xff : Nat).testBit i = false := by
      rw [(by norm_num : (0xff : Nat) = 2 ^ 8 - 1), Nat.testBit_two_pow_sub_one]
      simp only [decide_eq_false_iff_not]
      omega
    have hv : val.testBit i = false :=
      Nat.testBit_lt_two_pow (lt_of_lt_of_le hval
        (by calc (256 : Nat) = 2 ^ 8 := by norm_num
              _ ≤ 2 ^ i := Nat.pow_le_pow_right (by norm_num) (by omega)))
    rw [hff, hv, Bool.and_false]

/-- Every cached byte produced by `set_break_points` was extracted with
`&&& 0xff`, hence fits in a byte. -/
theorem set_break_points_orig_lt (bps : List Breakpoint) (mem : Nat → Nat) :
    ∀ bp ∈ (set_break_points bps mem).1, bp.orig_byte < 256 := by
  induction bps generalizing mem with
  | nil => intro bp h; simp [set_break_points] at h
  | cons b rest ih =>
    intro bp h
    simp only [set_break_points] at h
    rcases List.mem_cons.mp h with rfl | h
    · exact lt_of_le_of_lt Nat.and_le_right (by norm_num)
    · exact ih _ bp h

/-- `check_stop_at_b` never touches the breakpoint map. -/
theorem check_stop_at_b_bps (st : InfState) (w : Except Unit Status) :
    (check_stop_at_b st w).bps = st.bps := by
  unfold check_stop_at_b
  by_cases h : (lookupBp st.bps st.rip).isSome
  · rw [if_pos h]
    rcases w with e | s
    · rfl
    · rcases s with ⟨sg, r⟩ | c | sg <;> rfl
  · rw [if_neg h]

/-- `check_stop_at_b` leaves the process alive when either the current
counter is not a breakpoint (no step happens) or the step's wait reports a
stop. -/
theorem check_stop_at_b_alive (st : InfState) (w : Except Unit Status)
    (h : lookupBp st.bps st.rip = none ∨ ∃ s r, w = Except.ok (Status.Stopped s r)) :
    (check_stop_at_b st w).alive = st.alive := by
  unfold check_stop_at_b
  rcases h with h | ⟨s, r, rfl⟩
  · simp [h]
  · by_cases hh : (lookupBp st.bps st.rip).isSome
    · rw [if_pos hh]
    · rw [if_neg hh]

/-- Behaviour of `set_back_rip` on a live process stopped one byte past a
breakpoint address: restore the cached byte there and rewind `%rip`. -/
theorem set_back_rip_hit (st : InfState) (bp : Breakpoint)
    (halive : st.alive = true)
    (hlk : lookupBp st.bps (sub1_64 st.rip) = some bp) :
    set_back_rip st
      = some { st with mem := (write_byte st.mem (sub1_64 st.rip) bp.orig_byte).1,
                       rip := sub1_64 st.rip } := by
  unfold set_back_rip
  rw [halive, if_pos rfl]
  simp only [hlk]

/-- Concrete memory for the `continue_proc` scenarios: the target's text word
at address 4096 is `0x90`. -/
def memC1 : Nat → Nat := fun a => if a = 4096 then 0x90 else 0

/-- Concrete inferior stopped away from its single breakpoint at 4096 (the
`orig_byte` still holds the `0xcc` placeholder the `Break` arm stored). -/
def stC1 : InfState := ⟨[⟨4096, 0xcc⟩], memC1, 0, true⟩

/-- C1 counterexample: resuming `stC1` and trapping at the breakpoint makes
the wait report the post-trap counter 4097; `continue_proc` passes exactly
that raw counter — not the breakpoint address 4096 — to
`debug_data.get_line_from_addr` for the stop-location report
(inferior.rs:157 runs before `set_back_rip` at inferior.rs:174). -/
theorem continue_proc_reports_post_trap_addr :
    (continue_proc stC1 (Except.error ())
        (Except.ok (Status.Stopped Signal.SIGTRAP 4097))).reportAddr = some 4097
    ∧ (4097 : Nat) ≠ 4096 :=
  ⟨rfl, by decide⟩

/-- C1 (amended): whenever a resume stops on a trap whose decremented counter
is an installed breakpoint address, `continue_proc` decrements the counter,
writes the cached original byte back at the corrected address and rewrites
`%rip` to the corrected address before returning — but the stop location it
reports is resolved from the raw post-trap counter, one byte past the
breakpoint address. -/
theorem continue_proc_trap_stop (st0 : InfState) (stepW contW : Except Unit Status)
    (sig : Signal) (r : Nat) (bp : Breakpoint)
    (halive : st0.alive = true)
    (hcont : contW = Except.ok (Status.Stopped sig r))
    (hbp : lookupBp (set_break_points st0.bps st0.mem).1 (sub1_64 r) = some bp)
    (hstep : lookupBp (set_break_points st0.bps st0.mem).1 st0.rip = none
        ∨ ∃ s rr, stepW = Except.ok (Status.Stopped s rr)) :
    ((continue_proc st0 stepW contW).st.map InfState.rip = some (sub1_64 r))
    ∧ ((continue_proc st0 stepW contW).st.map (fun s => byteAt s.mem (sub1_64 r))
        = some bp.orig_byte)
    ∧ ((continue_proc st0 stepW contW).reportAddr = some r) := by
  subst hcont
  have hblt : bp.orig_byte < 256 :=
    set_break_points_orig_lt st0.bps st0.mem bp (List.mem_of_find?_eq_some hbp)
  have haddr : sub1_64 r < 2 ^ 64 := Nat.mod_lt _ (by norm_num)
  simp only [continue_proc]
  set st1 : InfState :=
    { st0 with bps := (set_break_points st0.bps st0.mem).1,
               mem := (set_break_points st0.bps st0.mem).2 } with hst1
  set st2 := check_stop_at_b st1 stepW with hst2
  have halive2 : st2.alive = true := by
    rw [hst2, check_stop_at_b_alive st1 stepW hstep]
    exact halive
  have hlk : lookupBp st2.bps (sub1_64 r) = some bp := by
    rw [hst2, check_stop_at_b_bps]
    exact hbp
  have hsbr := set_back_rip_hit { st2 with rip := r } bp halive2 hlk
  rw [hsbr]
  refine ⟨rfl, ?_, trivial⟩
  show some (byteAt (write_byte st2.mem (sub1_64 r) bp.orig_byte).1 (sub1_64 r))
      = some bp.orig_byte
  exact congrArg some (byteAt_write_byte_self st2.mem (sub1_64 r) bp.orig_byte haddr hblt)

/-- C1 witness: the amended theorem evaluated on the concrete inferior
`stC1`, trapping at 4097 over the breakpoint at 4096. -/
theorem continue_proc_trap_stop_witness :
    stC1.alive = true
    ∧ lookupBp (set_break_points stC1.bps stC1.mem).1 (sub1_64 4097) = some ⟨4096, 0x90⟩
    ∧ lookupBp (set_break_points stC1.bps stC1.mem).1 stC1.rip = none
    ∧ ((continue_proc stC1 (Except.error ())
          (Except.ok (Status.Stopped Signal.SIGTRAP 4097))).st.map InfState.rip
        = some (sub1_64 4097))
    ∧ ((continue_proc stC1 (Except.error ())
          (Except.ok (Status.Stopped Signal.SIGTRAP 4097))).st.map
            (fun s => byteAt s.mem (sub1_64 4097))
        = some (0x90 : Nat))
    ∧ ((continue_proc stC1 (Except.error ())
          (Except.ok (Status.Stopped Signal.SIGTRAP 4097))).reportAddr = some 4097) := by
  have h := continue_proc_trap_stop stC1 (Except.error ())
    (Except.ok (Status.Stopped Signal.SIGTRAP 4097)) Signal.SIGTRAP 4097
    ⟨4096, 0x90⟩ rfl rfl (by decide) (Or.inl (by decide))
  exact ⟨rfl, by decide, by decide, h.1, h.2.1, h.2.2⟩

/-- The traced memory for the C2 scenario: the trap byte `0xcc` is already
installed at address 0 (the breakpoint was installed by an earlier resume and
never stepped over). -/
def memC2 : Nat → Nat := fun a => if a = 0 then 0xcc else 0

/-- C2: re-running the install on a breakpoint whose trap byte is already in
memory leaves the live trap byte unchanged but *overwrites* the cached
original byte with `0xcc` (the byte the patch read back), destroying the
previously cached true original `0x55` — `set_break_points` does not skip
already-trapped addresses. -/
theorem set_break_points_reinstall_corrupts :
    byteAt memC2 0 = 0xcc
    ∧ (set_break_points [⟨0, 0x55⟩] memC2).1 = [⟨0, 0xcc⟩]
    ∧ byteAt (set_break_points [⟨0, 0x55⟩] memC2).2 0 = 0xcc
    ∧ (0xcc : Nat) ≠ 0x55 := by
  refine ⟨by decide, by decide, by decide, by decide⟩

/-- C3: when the Symbol Resolver returns no address for a `Break`
specification, the `Break` arm evaluates `address.unwrap()` on `None` and
panics, aborting the whole debugger — it neither reports a `ResolutionError`
nor continues the command loop (the table, like the rest of the process,
never receives an entry). -/
theorem break_arm_unresolved_panics (table : List Breakpoint) :
    break_arm none table = BreakOutcome.panicked
    ∧ ∀ t, break_arm none table ≠ BreakOutcome.ok t :=
  ⟨rfl, fun _ h => BreakOutcome.noConfusion h⟩

/-- Resolver and memory for the C4 counterexample: every address resolves to
a non-`main` function and every read returns 0, so the frame chain is the
self-loop `(0, 0) → (0, 0)`. -/
def fnC4 : Nat → Option String := fun _ => some ("loop_fn")

/-- Memory oracle for the C4 counterexample. -/
def memC4 : Nat → Except Unit Nat := fun _ => Except.ok 0

/-- On the self-loop chain the fuel-indexed walk runs out of any amount of
fuel. -/
theorem print_backtrace_fuelOut_cyc (fuel : Nat) :
    print_backtrace fnC4 memC4 fuel 0 0 = WalkResult.fuelOut := by
  induction fuel with
  | zero => rfl
  | succ n ih => exact ih

/-- C4 counterexample: `print_backtrace`'s `while true` loop has no frame
bound — on a readable but cyclic frame chain that never resolves to `main`
the walk neither reaches a terminal frame nor reports an error for any
number of iterations. -/
theorem print_backtrace_no_bound : ¬ walkTerminates fnC4 memC4 0 0 := by
  rintro ⟨fuel, h⟩
  exact h (print_backtrace_fuelOut_cyc fuel)

/-- C4 (amended): the walk has no intrinsic depth bound (it loops forever on
a non-conforming cyclic chain), but on every well-formed chain — one whose
`k`-th frame-chain iterate exists and resolves to the entry function
`main` — the walk terminates within `k + 1` iterations (a failed read also
terminates it, as a propagated error). -/
theorem print_backtrace_terminates_of_reaches_main
    (fn : Nat → Option String) (mem : Nat → Except Unit Nat) :
    ∀ k rip rbp r b, chainIter mem k (rip, rbp) = Except.ok (r, b) →
      fn r = some ("main") →
      print_backtrace fn mem (k + 1) rip rbp ≠ WalkResult.fuelOut := by
  intro k
  induction k with
  | zero =>
    intro rip rbp r b hch hm
    simp only [chainIter, Except.ok.injEq, Prod.mk.injEq] at hch
    obtain ⟨rfl, rfl⟩ := hch
    simp only [print_backtrace]
    rw [if_pos hm]
    exact fun h => WalkResult.noConfusion h
  | succ k ih =>
    intro rip rbp r b hch hm
    simp only [chainIter] at hch
    cases h8 : mem (rbp + 8) with
    | error e => rw [h8] at hch; simp at hch
    | ok rip' =>
      cases h0 : mem rbp with
      | error e => rw [h8, h0] at hch; simp at hch
      | ok rbp' =>
        rw [h8, h0] at hch
        by_cases hmain : fn rip = some ("main")
        · simp only [print_backtrace]
          rw [if_pos hmain]
          exact fun h => WalkResult.noConfusion h
        · simp only [print_backtrace]
          rw [if_neg hmain, h8, h0]
          exact ih rip' rbp' r b hch hm

/-- C4 witness: the amended termination theorem on a one-frame chain whose
starting counter already resolves to `main`. -/
theorem print_backtrace_terminates_witness :
    chainIter (fun _ => Except.ok 0) 0 ((0 : Nat), (0 : Nat)) = Except.ok ((0 : Nat), (0 : Nat))
    ∧ (fun a : Nat => if a = 0 then some ("main") else none) 0 = some ("main")
    ∧ print_backtrace (fun a : Nat => if a = 0 then some ("main") else none)
        (fun _ => Except.ok 0) 1 0 0 ≠ WalkResult.fuelOut :=
  ⟨rfl, rfl,
    print_backtrace_terminates_of_reaches_main
      (fun a : Nat => if a = 0 then some ("main") else none)
      (fun _ => Except.ok 0) 0 0 0 0 0 rfl rfl⟩

/-- C7: `Inferior::new` returns a controller exactly when the spawn succeeded
and the initial blocking wait reported a `SIGTRAP` stop; every other initial
outcome (spawn failure, exit, termination by signal, stop on another signal,
wait error) yields `None`. -/
theorem inferior_new_iff (spawn_ok : Bool) (bps : List Breakpoint)
    (w : Except Unit Status) :
    (inferior_new spawn_ok bps w).isSome = true
      ↔ spawn_ok = true ∧ ∃ r, w = Except.ok (Status.Stopped Signal.SIGTRAP r) := by
  cases spawn_ok with
  | false => simp [inferior_new]
  | true =>
    simp only [inferior_new, if_true, true_and]
    rcases w with e | s
    · simp
    · rcases s with ⟨sg, r⟩ | c | sg
      · cases sg <;> simp
      · simp
      · simp

/-- Concrete inferior held by the orchestrator in the C8 scenario. -/
def stC8 : InfState := ⟨[], fun _ => 0, 0, true⟩

/-- C8 counterexample: a `Run` whose spawn fails while a controller exists
does *not* leave the orchestrator in `NoProcess` — `self.inferior` still
holds the (killed) previous controller. -/
theorem run_arm_spawn_fail_keeps_dead_inferior :
    (run_arm (some stC8) none).1 = some (kill_inferior stC8)
    ∧ (run_arm (some stC8) none).1 ≠ none := by
  refine ⟨rfl, ?_⟩
  simp [run_arm]

/-- C8 (amended): the `Run` arm kills an existing controller before the spawn
(the kill is its first action exactly when a controller exists), on spawn
success the new controller replaces the held one, and on spawn failure the
reported error leaves no *live* controller — but the field keeps the killed
prior instance instead of becoming `NoProcess`. -/
theorem run_arm_spec (cur spawnRes : Option InfState) :
    ((run_arm cur spawnRes).2.head? = some RunEv.evKill ↔ cur.isSome = true)
    ∧ (∀ inf, spawnRes = some inf → (run_arm cur spawnRes).1 = some inf)
    ∧ (spawnRes = none →
        RunEv.evSpawnFail ∈ (run_arm cur spawnRes).2
        ∧ (run_arm cur spawnRes).1 = cur.map kill_inferior
        ∧ ∀ i, (run_arm cur spawnRes).1 = some i → i.alive = false) := by
  rcases cur with _ | c <;> rcases spawnRes with _ | s
  · simp [run_arm]
  · simp [run_arm]
  · refine ⟨by simp [run_arm], by simp [run_arm], fun _ => ⟨by simp [run_arm], by simp [run_arm], ?_⟩⟩
    intro i h
    simp only [run_arm, Option.some.injEq] at h
    rw [← h]
    rfl
  · simp [run_arm]

/-- C8 witness: the amended `Run`-arm properties at the concrete held
controller `stC8` with a failing spawn. -/
theorem run_arm_spec_witness :
    ((run_arm (some stC8) none).2.head? = some RunEv.evKill)
    ∧ RunEv.evSpawnFail ∈ (run_arm (some stC8) none).2
    ∧ (run_arm (some stC8) none).1 = (some stC8).map kill_inferior := by
  obtain ⟨h1, _, h3⟩ := run_arm_spec (some stC8) none
  exact ⟨h1.mpr rfl, (h3 rfl).1, (h3 rfl).2.1⟩

/-- C9: the entry the `Break` arm pushes stores the trap opcode `0xcc` as its
`orig_byte` placeholder; whenever the byte actually in the target's memory at
that address differs from `0xcc`, the cached byte therefore disagrees with
memory until `set_break_points` installs the trap and captures the true
original byte into the entry. -/
theorem break_entry_placeholder (table : List Breakpoint) (a : Nat) (mem : Nat → Nat)
    (hne : byteAt mem a ≠ 0xcc) :
    break_arm (some a) table = BreakOutcome.ok (table ++ [⟨a, 0xcc⟩])
    ∧ (0xcc : Nat) ≠ byteAt mem a
    ∧ (set_break_points [⟨a, 0xcc⟩] mem).1 = [⟨a, byteAt mem a⟩] :=
  ⟨rfl, fun h => hne h.symm, rfl⟩

/-- C9 witness: the placeholder property at address 0 over a memory whose
byte there is `0x90`. -/
theorem break_entry_placeholder_witness :
    byteAt (fun _ => 0x90) 0 ≠ 0xcc
    ∧ break_arm (some 0) [] = BreakOutcome.ok [⟨0, 0xcc⟩]
    ∧ (0xcc : Nat) ≠ byteAt (fun _ => 0x90) 0
    ∧ (set_break_points [⟨(0 : Nat), (0xcc : Nat)⟩] (fun _ => 0x90)).1
        = [⟨0, byteAt (fun _ => 0x90) 0⟩] := by
  have h := break_entry_placeholder [] 0 (fun _ => 0x90) (by decide)
  exact ⟨by decide, h.1, h.2.1, h.2.2⟩

/-- C10: the command parser produces `Next` (for both spellings), yet no arm
of the orchestrator's command `match` invokes `step_to_next_line` — the
`Next` command has no arm at all, so the line-stepping operation is never
reached from the command loop. -/
theorem next_command_never_dispatched :
    from_tokens ["next"] = some DebuggerCommand.Next
    ∧ from_tokens ["n"] = some DebuggerCommand.Next
    ∧ ∀ c ops, dispatch_ops c = some ops → DebugOp.opStepToNextLine ∉ ops := by
  refine ⟨by decide, by decide, ?_⟩
  intro c ops h
  cases c with
  | Quit => injection h with h; subst h; decide
  | Run args => injection h with h; subst h; decide
  | Continue => injection h with h; subst h; decide
  | Backtrace => injection h with h; subst h; decide
  | Break spec => injection h with h; subst h; decide
  | Print => injection h with h; subst h; decide
  | Next => exact Option.noConfusion h

/-- C10 witness: the dispatch property instantiated at the `Continue`
command. -/
theorem next_command_never_dispatched_witness :
    from_tokens ["next"] = some DebuggerCommand.Next
    ∧ dispatch_ops DebuggerCommand.Continue = some [DebugOp.opContinueProc]
    ∧ DebugOp.opStepToNextLine ∉ [DebugOp.opContinueProc] :=
  ⟨next_command_never_dispatched.1, rfl,
    next_command_never_dispatched.2.2 DebuggerCommand.Continue [DebugOp.opContinueProc] rfl⟩

end Deet
